import Mathlib

/-!
# Verification of the WebDNN browser benchmark harness

Shallow embedding of the benchmark page (`BaseBenchmark` and its engine
adapters `WebDNNBenchmark`, `KerasJSBenchmark`, `DeepLearnJSBenchmark`,
plus the `run` driver).

Modelling conventions:
* JavaScript numbers that hold timing samples are modelled as natural
  numbers (milliseconds).  Statistics (`mean`, the standard-deviation
  radicand) are computed exactly in `ℚ`; the code's `Math.sqrt` is taken
  at the level of theorem statements via `Real.sqrt`, keeping every
  definition computable.
* A promise chain is modelled as a sequential computation in
  `Except String α` (a rejected promise is `.error msg`), together with an
  explicit event trace recording which lifecycle phases ran and in which
  order.
* External engines (WebDNN runners, Keras.js models, deeplearn.js
  sessions) are oracles: the per-iteration execution hook is a function
  `ℕ → Except String ℕ` giving, for each iteration index, either the
  elapsed time measured around the engine call or the rejection message.
-/

namespace WebDNNBench

/-! ## ECMAScript default `Array.prototype.sort`

`this.results.sort()` in `BaseBenchmark.summarize` is called without a
comparator, so ECMAScript's `SortCompare` converts both elements with
`ToString` and compares the resulting strings by UTF-16 code units.  For
natural numbers `ToString` is the decimal numeral, and for characters in
the basic plane the UTF-16 unit is the code point (`Char.toNat`).
The sort is required (ES2019) to be stable, so its output is the unique
stable reordering; we realise it as a stable insertion sort. -/

/-- UTF-16 code-unit lexicographic "less than" on strings (as char lists). -/
def strLt : List Char → List Char → Bool
  | [], [] => false
  | [], _ :: _ => true
  | _ :: _, [] => false
  | a :: as, b :: bs =>
    if a.toNat < b.toNat then true
    else if b.toNat < a.toNat then false
    else strLt as bs

/-- `ToString` of a natural: its decimal numeral. -/
def jsKey (n : ℕ) : List Char := Nat.toDigits 10 n

/-- ECMAScript `SortCompare(a, b) < 0` for numbers without a comparator. -/
def jsNumLt (a b : ℕ) : Bool := strLt (jsKey a) (jsKey b)

/-- Stable insertion of `a` into a sorted list: `a` goes before the first
element not strictly below it. -/
def jsInsert (a : ℕ) : List ℕ → List ℕ
  | [] => [a]
  | b :: bs => if jsNumLt b a then b :: jsInsert a bs else a :: b :: bs

/-- The JS default sort (stable, by string keys). -/
def jsSort : List ℕ → List ℕ
  | [] => []
  | a :: as => jsInsert a (jsSort as)

/-- The (non-strict) order the JS default sort arranges numbers in. -/
def jsLe (a b : ℕ) : Prop := jsNumLt b a = false

theorem strLt_asymm : ∀ x y : List Char, strLt x y = true → strLt y x = false := by
  intro x
  induction x with
  | nil => intro y h; cases y <;> simp_all [strLt]
  | cons a as ih =>
    intro y h
    cases y with
    | nil => simp [strLt] at h
    | cons b bs =>
      simp only [strLt] at h ⊢
      split_ifs at h ⊢ <;> first | rfl | omega | exact ih bs h

theorem strLt_trans :
    ∀ x y z : List Char, strLt x y = true → strLt y z = true → strLt x z = true := by
  intro x
  induction x with
  | nil =>
    intro y z hxy hyz
    cases y <;> cases z <;> simp_all [strLt]
  | cons a as ih =>
    intro y z hxy hyz
    cases y with
    | nil => simp [strLt] at hxy
    | cons b bs =>
      cases z with
      | nil => simp [strLt] at hyz
      | cons c cs =>
        simp only [strLt] at hxy hyz ⊢
        split_ifs at hxy hyz ⊢ <;>
          first | rfl | omega | exact ih bs cs hxy hyz

theorem strLt_false_trans :
    ∀ x y z : List Char, strLt x y = false → strLt y z = false → strLt x z = false := by
  intro x
  induction x with
  | nil =>
    intro y z h₁ h₂
    cases y with
    | nil => cases z with
      | nil => rfl
      | cons c cs => simp [strLt] at h₂
    | cons b bs => simp [strLt] at h₁
  | cons a as ih =>
    intro y z h₁ h₂
    cases z with
    | nil => rfl
    | cons c cs =>
      cases y with
      | nil => simp [strLt] at h₂
      | cons b bs =>
        simp only [strLt] at h₁ h₂ ⊢
        rcases Nat.lt_trichotomy a.toNat b.toNat with hab | hab | hab
        · simp [hab] at h₁
        · rcases Nat.lt_trichotomy b.toNat c.toNat with hbc | hbc | hbc
          · simp [hbc] at h₂
          · have hnac : ¬ a.toNat < c.toNat := by omega
            have hnca : ¬ c.toNat < a.toNat := by omega
            have h₁' : strLt as bs = false := by
              simpa [show ¬ a.toNat < b.toNat by omega,
                show ¬ b.toNat < a.toNat by omega] using h₁
            have h₂' : strLt bs cs = false := by
              simpa [show ¬ b.toNat < c.toNat by omega,
                show ¬ c.toNat < b.toNat by omega] using h₂
            simp [hnac, hnca, ih bs cs h₁' h₂']
          · simp [show ¬ a.toNat < c.toNat by omega, show c.toNat < a.toNat by omega]
        · rcases Nat.lt_trichotomy b.toNat c.toNat with hbc | hbc | hbc
          · simp [hbc] at h₂
          · simp [show ¬ a.toNat < c.toNat by omega, show c.toNat < a.toNat by omega]
          · simp [show ¬ a.toNat < c.toNat by omega, show c.toNat < a.toNat by omega]

/-- Negative transitivity of the key order, needed for sortedness. -/
theorem jsNumLt_neg_trans {a b c : ℕ}
    (h₁ : jsNumLt c b = false) (h₂ : jsNumLt b a = false) : jsNumLt c a = false :=
  strLt_false_trans _ _ _ h₁ h₂

theorem jsInsert_perm (a : ℕ) : ∀ l : List ℕ, (jsInsert a l).Perm (a :: l) := by
  intro l
  induction l with
  | nil => simp [jsInsert]
  | cons b bs ih =>
    simp only [jsInsert]
    split_ifs
    · exact ((ih.cons b).trans (List.Perm.swap a b bs))
    · exact List.Perm.refl _

theorem jsSort_perm : ∀ l : List ℕ, (jsSort l).Perm l := by
  intro l
  induction l with
  | nil => exact List.Perm.refl _
  | cons a as ih => exact (jsInsert_perm a (jsSort as)).trans (ih.cons a)

theorem jsInsert_sorted (a : ℕ) :
    ∀ l : List ℕ, l.Sorted jsLe → (jsInsert a l).Sorted jsLe := by
  intro l
  induction l with
  | nil => intro _; simp [jsInsert, List.Sorted]
  | cons b bs ih =>
    intro hs
    rw [List.sorted_cons] at hs
    obtain ⟨hb, hbs⟩ := hs
    simp only [jsInsert]
    split_ifs with hba
    · rw [List.sorted_cons]
      refine ⟨?_, ih hbs⟩
      intro x hx
      have hx' := (jsInsert_perm a bs).mem_iff.mp hx
      rcases List.mem_cons.mp hx' with rfl | hxbs
      · exact strLt_asymm _ _ hba
      · exact hb x hxbs
    · rw [List.sorted_cons]
      constructor
      · intro x hx
        rcases List.mem_cons.mp hx with rfl | hxbs
        · simpa [jsLe] using hba
        · exact jsNumLt_neg_trans (hb x hxbs) (by simpa [jsLe] using hba)
      · exact List.sorted_cons.mpr ⟨hb, hbs⟩

theorem jsSort_sorted : ∀ l : List ℕ, (jsSort l).Sorted jsLe := by
  intro l
  induction l with
  | nil => simp [jsSort, List.Sorted]
  | cons a as ih => exact jsInsert_sorted a (jsSort as) ih

/-! ## `Summary` and `BaseBenchmark.summarize`

```ts
summarize() {
    this.results.shift(); // remove first run
    let results = this.results.sort();
    let d = results.reduce((d, v) => {
        d.sum += v;
        d.sum2 += v * v;
        return d;
    }, {sum: 0, sum2: 0});
    let mean = d.sum / results.length;
    let std = Math.sqrt((d.sum2 - results.length * mean * mean) / (results.length - 1));
    return {name: this.name, mean: mean, std: std, results: results};
}
```

The code stores `std = Math.sqrt(stdSq)`; we keep the radicand `stdSq`
(a rational, computed exactly) in the record so that the summary stays
computable, and take `Real.sqrt` in theorem statements.  JavaScript's
`NaN` outcomes at the `results.length ≤ 1` boundary correspond to the
Lean convention `x / 0 = 0`; no claim below touches that boundary. -/

/-- Cast a natural timing sample to an exact rational. -/
def qcast (v : ℕ) : ℚ := v

structure Summary where
  name : String
  mean : ℚ
  stdSq : ℚ
  results : List ℕ
deriving Repr, DecidableEq

def summarize (name : String) (recorded : List ℕ) : Summary :=
  let shifted := recorded.tail
  let results := jsSort shifted
  let d := results.foldl (fun d v => (d.1 + qcast v, d.2 + qcast v * qcast v))
    ((0 : ℚ), (0 : ℚ))
  let mean : ℚ := d.1 / results.length
  let stdSq : ℚ := (d.2 - (results.length : ℚ) * mean * mean) / ((results.length : ℚ) - 1)
  { name := name, mean := mean, stdSq := stdSq, results := results }

theorem summarize_results (name : String) (recorded : List ℕ) :
    (summarize name recorded).results = jsSort recorded.tail := rfl

/-- The paired fold of `reduce` splits into the two power sums. -/
theorem summarize_fold_eq (l : List ℕ) (a b : ℚ) :
    l.foldl (fun d v => (d.1 + qcast v, d.2 + qcast v * qcast v)) (a, b) =
      (a + (l.map qcast).sum, b + (l.map fun v => qcast v * qcast v).sum) := by
  induction l generalizing a b with
  | nil => simp
  | cons x xs ih => simp [ih]; constructor <;> ring

theorem summarize_mean (name : String) (recorded : List ℕ) :
    (summarize name recorded).mean =
      (recorded.tail.map qcast).sum / recorded.tail.length := by
  have hperm := jsSort_perm recorded.tail
  have hsum : ((jsSort recorded.tail).map qcast).sum =
      (recorded.tail.map qcast).sum := (hperm.map _).sum_eq
  simp only [summarize, summarize_fold_eq]
  simp [hsum, hperm.length_eq]

theorem summarize_stdSq (name : String) (recorded : List ℕ) :
    (summarize name recorded).stdSq =
      ((recorded.tail.map fun v => qcast v * qcast v).sum -
        (recorded.tail.length : ℚ) * (summarize name recorded).mean *
          (summarize name recorded).mean) / ((recorded.tail.length : ℚ) - 1) := by
  have hperm := jsSort_perm recorded.tail
  have hsum2 : ((jsSort recorded.tail).map fun v => qcast v * qcast v).sum =
      (recorded.tail.map fun v => qcast v * qcast v).sum := (hperm.map _).sum_eq
  simp only [summarize, summarize_fold_eq]
  simp [hsum2, hperm.length_eq]

/-- Algebraic identity behind Bessel correction: for any `m`,
`Σ (x − m)² = Σ x² − 2 m Σ x + n m²`. -/
theorem sum_sq_dev (l : List ℚ) (m : ℚ) :
    (l.map fun x => (x - m) ^ 2).sum =
      (l.map fun x => x * x).sum - 2 * m * l.sum + l.length * m ^ 2 := by
  induction l with
  | nil => simp
  | cons x xs ih => simp [ih]; ring

/-! ## Lifecycle of `BaseBenchmark.runAsync`

```ts
async runAsync(numIteration) {
    this.numIteration = numIteration;
    this.results = [];
    return this.setupAsync()
        .then(() => this.executeAsync())
        .then(() => this.finalizeAsync())
        .then(() => {
            let summary = this.summarize();
            this.summary = summary;
            return summary;
        })
        .catch((err) => console_error(err));
}

async executeAsync() {
    for (let i = 0; i < this.numIteration; i++) {
        this.onExecuteSingle(i);
        await new Promise(resolve => setTimeout(resolve, 1000));
        let tStart = performance.now();
        await this.executeSingleAsync();
        let elapsedTime = performance.now() - tStart;
        this.results.push(elapsedTime);
    }
}
```

A `.then` chain skips the remaining handlers as soon as one link
rejects, and the trailing `.catch` resolves the whole chain with the
(undefined) return value of `console_error`.  The trace records every
lifecycle step in order; the two `performance.now()` timestamps around
the engine call are folded into the elapsed time the execution oracle
reports. -/

inductive Event where
  | setupPhase : Event
  | notify : ℕ → Event
  | wait : ℕ → Event
  | execute : ℕ → Event
  | record : ℕ → ℕ → Event
  | finalizePhase : Event
  | summarizePhase : Event
  | report : String → Event
deriving Repr, DecidableEq

/-- The three overridable hooks of `BaseBenchmark`, over engine state `σ`
(the fields holding the engine handle).  `executeSingle` is the external
engine oracle: for iteration `i` it yields the elapsed time measured
around the engine call, or the rejection message. -/
structure Hooks (σ : Type) where
  name : String
  setup : σ → Except String σ
  executeSingle : ℕ → Except String ℕ
  finalize : σ → Except String σ

/-- One iteration's event block: progress log, 1-second cooldown,
timed engine call, recorded elapsed time. -/
def iterEvents (i t : ℕ) : List Event :=
  [Event.notify i, Event.wait 1000, Event.execute i, Event.record i t]

/-- The `for` loop of `executeAsync` over the listed iteration indices:
returns the emitted events, the pushed samples, and the first rejection
(if any), which aborts the remaining iterations. -/
def execIter (exec : ℕ → Except String ℕ) : List ℕ → List Event × List ℕ × Option String
  | [] => ([], [], none)
  | i :: rest =>
    match exec i with
    | Except.error e => ([Event.notify i, Event.wait 1000, Event.execute i], [], some e)
    | Except.ok t =>
      let r := execIter exec rest
      (iterEvents i t ++ r.1, t :: r.2.1, r.2.2)

def executeAsync (exec : ℕ → Except String ℕ) (numIteration : ℕ) :
    List Event × List ℕ × Option String :=
  execIter exec (List.range numIteration)

/-- Observable outcome of one `runAsync` call: final engine state, the
`this.results` field (mutated by `summarize`), the `this.summary` field,
the event trace, and what the returned promise settles to.  The promise
type still allows rejection; that it never rejects is a theorem. -/
structure RunOutcome (σ : Type) where
  state : σ
  results : List ℕ
  summary : Option Summary
  trace : List Event
  value : Except String (Option Summary)

/-- The `.then` chain of `runAsync` before the trailing `.catch`. -/
def runChain {σ : Type} (h : Hooks σ) (s : σ) (numIteration : ℕ) : RunOutcome σ :=
  match h.setup s with
  | Except.error e =>
    ⟨s, [], none, [Event.setupPhase], Except.error e⟩
  | Except.ok s₁ =>
    let r := executeAsync h.executeSingle numIteration
    match r.2.2 with
    | some e =>
      ⟨s₁, r.2.1, none, Event.setupPhase :: r.1, Except.error e⟩
    | none =>
      match h.finalize s₁ with
      | Except.error e =>
        ⟨s₁, r.2.1, none, Event.setupPhase :: r.1 ++ [Event.finalizePhase], Except.error e⟩
      | Except.ok s₂ =>
        let sm := summarize h.name r.2.1
        ⟨s₂, sm.results, some sm,
          Event.setupPhase :: r.1 ++ [Event.finalizePhase, Event.summarizePhase],
          Except.ok (some sm)⟩

/-- `runAsync`: the chain with `.catch((err) => console_error(err))`,
which reports the rejection and resolves with `undefined`. -/
def runAsync {σ : Type} (h : Hooks σ) (s : σ) (numIteration : ℕ) : RunOutcome σ :=
  let c := runChain h s numIteration
  match c.value with
  | Except.ok v => ⟨c.state, c.results, c.summary, c.trace, Except.ok v⟩
  | Except.error e => ⟨c.state, c.results, c.summary, c.trace ++ [Event.report e],
      Except.ok none⟩

/-! ## The engine adapters -/

/-- `WebDNNBenchmark`: `setupAsync` loads a descriptor runner and stores
it in `this.runner`; `finalizeAsync` sets `this.runner = null`.  The
engine state is the `runner` field; `load` is the outcome of
`WebDNN.load`. -/
def webdnnHooks (name : String) (load : Except String Unit)
    (exec : ℕ → Except String ℕ) : Hooks (Option Unit) where
  name := name
  setup := fun _ => load.map fun _ => some ()
  executeSingle := exec
  finalize := fun _ => Except.ok none

/-- The URL prefix `WebDNN.load` is called with:
`./output/webdnn/${model}/${this.flagOptimized ? '' : 'non_'}optimized`. -/
def webdnnLoadPath (model : String) (flagOptimized : Bool) : String :=
  "./output/webdnn/" ++ model ++ "/" ++ (if flagOptimized then "" else "non_") ++ "optimized"

/-- The constructor-visible configuration of a `WebDNNBenchmark`. -/
structure WebDNNConfig where
  name : String
  backend : String
  flagOptimized : Bool
deriving Repr, DecidableEq

/-- `new WebDNNBenchmark(name, backend, flagOptimized)`: stores its three
parameters; no other state is consulted when the load URL and backend
order are later derived. -/
def mkWebDNNBenchmark (name backend : String) (flagOptimized : Bool) : WebDNNConfig :=
  ⟨name, backend, flagOptimized⟩

/-- `DeepLearnJSBenchmark.setupAsync` guard:
`if (getSelectedModel() !== 'resnet50') throw Error(...)`. -/
def deepLearnJSSetup (model : String) : Except String Unit :=
  if model ≠ "resnet50" then
    Except.error "Only ResNet50 is supported in benchmark of deeplearn.js"
  else Except.ok ()

/-- `DeepLearnJSBenchmark` as hooks: the state is the
`session`/`math`/`feeds`/`y` fields (all set together, all nulled
together by `finalizeAsync`). -/
def deepLearnHooks (name model : String) (exec : ℕ → Except String ℕ) :
    Hooks (Option Unit) where
  name := name
  setup := fun _ => (deepLearnJSSetup model).map fun _ => some ()
  executeSingle := exec
  finalize := fun _ => Except.ok none

/-! ## The `run` driver -/

/-- `let numIteration = Number(...iterations.value) + 1;
if (isNaN(numIteration)) { numIteration = 5; }` —
a JS number that may be `NaN` is modelled as `Option ℚ` (`none` = `NaN`;
`Number()` of a non-numeric string is `NaN`, and `NaN + 1` is `NaN`). -/
def driverNumIteration (entered : Option ℚ) : ℚ :=
  match entered.map (fun n => n + 1) with
  | some v => v
  | none => 5

/-! ## Shape lemmas for the four lifecycle outcomes -/

/-- Is the event one of the per-iteration events? -/
def isIterEv : Event → Bool
  | Event.notify _ => true
  | Event.wait _ => true
  | Event.execute _ => true
  | Event.record _ _ => true
  | _ => false

/-- Is the event a timed execution of the single-execution hook? -/
def isExecuteEv : Event → Bool
  | Event.execute _ => true
  | _ => false

theorem mem_execIter_trace (exec : ℕ → Except String ℕ) :
    ∀ l : List ℕ, ∀ ev ∈ (execIter exec l).1, isIterEv ev = true := by
  intro l
  induction l with
  | nil => intro ev hev; simp [execIter] at hev
  | cons i rest ih =>
    intro ev hev
    simp only [execIter] at hev
    cases hexec : exec i with
    | error e =>
      rw [hexec] at hev
      simp only [List.mem_cons, List.not_mem_nil, or_false] at hev
      rcases hev with rfl | rfl | rfl <;> rfl
    | ok t =>
      rw [hexec] at hev
      simp only [List.mem_append, iterEvents, List.mem_cons, List.not_mem_nil,
        or_false] at hev
      rcases hev with (rfl | rfl | rfl | rfl) | h
      · rfl
      · rfl
      · rfl
      · rfl
      · exact ih ev h

theorem execIter_ok (exec : ℕ → Except String ℕ) (tf : ℕ → ℕ) :
    ∀ l : List ℕ, (∀ i ∈ l, exec i = Except.ok (tf i)) →
      execIter exec l = (l.flatMap fun i => iterEvents i (tf i), l.map tf, none) := by
  intro l
  induction l with
  | nil => intro _; rfl
  | cons i rest ih =>
    intro hall
    have hi : exec i = Except.ok (tf i) := hall i (List.mem_cons_self i rest)
    have hrest : ∀ j ∈ rest, exec j = Except.ok (tf j) :=
      fun j hj => hall j (List.mem_cons_of_mem i hj)
    simp [execIter, hi, ih hrest]

theorem execIter_count_execute (exec : ℕ → Except String ℕ) (i : ℕ) :
    ∀ l : List ℕ, (execIter exec l).1.count (Event.execute i) ≤ l.count i := by
  intro l
  induction l with
  | nil => simp [execIter]
  | cons j rest ih =>
    simp only [execIter]
    cases hexec : exec j with
    | error e =>
      by_cases hji : j = i <;>
        simp [List.count_cons, Event.execute.injEq, hji] <;> omega
    | ok t =>
      have hblock : (iterEvents j t).count (Event.execute i) = if j = i then 1 else 0 := by
        by_cases hji : j = i <;> simp [iterEvents, List.count_cons, hji]
      by_cases hji : j = i <;>
        simp only [List.count_append, List.count_cons, hblock, hji] <;>
        simp_all <;> omega

theorem runAsync_setup_err {σ : Type} (h : Hooks σ) (s : σ) (N : ℕ) (e : String)
    (hs : h.setup s = Except.error e) :
    runAsync h s N = ⟨s, [], none, [Event.setupPhase, Event.report e], Except.ok none⟩ := by
  simp [runAsync, runChain, hs]

theorem runAsync_exec_err {σ : Type} (h : Hooks σ) (s s₁ : σ) (N : ℕ) (e : String)
    (hs : h.setup s = Except.ok s₁)
    (he : (executeAsync h.executeSingle N).2.2 = some e) :
    runAsync h s N = ⟨s₁, (executeAsync h.executeSingle N).2.1, none,
      (Event.setupPhase :: (executeAsync h.executeSingle N).1) ++ [Event.report e],
      Except.ok none⟩ := by
  simp [runAsync, runChain, hs, he]

theorem runAsync_finalize_err {σ : Type} (h : Hooks σ) (s s₁ : σ) (N : ℕ) (e : String)
    (hs : h.setup s = Except.ok s₁)
    (hl : (executeAsync h.executeSingle N).2.2 = none)
    (hf : h.finalize s₁ = Except.error e) :
    runAsync h s N = ⟨s₁, (executeAsync h.executeSingle N).2.1, none,
      (Event.setupPhase :: (executeAsync h.executeSingle N).1 ++ [Event.finalizePhase]) ++
        [Event.report e],
      Except.ok none⟩ := by
  simp [runAsync, runChain, hl, hs, hf]

theorem runAsync_all_ok {σ : Type} (h : Hooks σ) (s s₁ s₂ : σ) (N : ℕ)
    (hs : h.setup s = Except.ok s₁)
    (hl : (executeAsync h.executeSingle N).2.2 = none)
    (hf : h.finalize s₁ = Except.ok s₂) :
    runAsync h s N = ⟨s₂,
      (summarize h.name (executeAsync h.executeSingle N).2.1).results,
      some (summarize h.name (executeAsync h.executeSingle N).2.1),
      (Event.setupPhase :: (executeAsync h.executeSingle N).1) ++
        [Event.finalizePhase, Event.summarizePhase],
      Except.ok (some (summarize h.name (executeAsync h.executeSingle N).2.1))⟩ := by
  simp [runAsync, runChain, hs, hl, hf]

theorem runAsync_ok {σ : Type} (h : Hooks σ) (s s₁ s₂ : σ) (N : ℕ) (tf : ℕ → ℕ)
    (hs : h.setup s = Except.ok s₁)
    (he : ∀ i, i < N → h.executeSingle i = Except.ok (tf i))
    (hf : h.finalize s₁ = Except.ok s₂) :
    runAsync h s N = ⟨s₂, (summarize h.name ((List.range N).map tf)).results,
      some (summarize h.name ((List.range N).map tf)),
      Event.setupPhase :: ((List.range N).flatMap fun i => iterEvents i (tf i)) ++
        [Event.finalizePhase, Event.summarizePhase],
      Except.ok (some (summarize h.name ((List.range N).map tf)))⟩ := by
  have hall : ∀ i ∈ List.range N, h.executeSingle i = Except.ok (tf i) :=
    fun i hi => he i (List.mem_range.mp hi)
  have hloop := execIter_ok h.executeSingle tf (List.range N) hall
  simp [runAsync, runChain, executeAsync, hs, hf, hloop]

theorem isIterEv_phase_false :
    isIterEv Event.setupPhase = false ∧ isIterEv Event.finalizePhase = false ∧
      isIterEv Event.summarizePhase = false := ⟨rfl, rfl, rfl⟩

theorem setupPhase_not_mem_execIter (exec : ℕ → Except String ℕ) (l : List ℕ) :
    Event.setupPhase ∉ (execIter exec l).1 := by
  intro hmem
  have := mem_execIter_trace exec l _ hmem
  simp [isIterEv] at this

theorem finalizePhase_not_mem_execIter (exec : ℕ → Except String ℕ) (l : List ℕ) :
    Event.finalizePhase ∉ (execIter exec l).1 := by
  intro hmem
  have := mem_execIter_trace exec l _ hmem
  simp [isIterEv] at this

theorem summarizePhase_not_mem_execIter (exec : ℕ → Except String ℕ) (l : List ℕ) :
    Event.summarizePhase ∉ (execIter exec l).1 := by
  intro hmem
  have := mem_execIter_trace exec l _ hmem
  simp [isIterEv] at this

theorem countP_execute_flatMap (tf : ℕ → ℕ) :
    ∀ l : List ℕ, ((l.flatMap fun i => iterEvents i (tf i)).countP isExecuteEv) = l.length := by
  intro l
  induction l with
  | nil => rfl
  | cons i rest ih =>
    simp only [List.flatMap_cons, List.countP_append, ih, List.length_cons]
    simp [iterEvents, List.countP_cons, isExecuteEv]
    omega

theorem count_setup_executeAsync (exec : ℕ → Except String ℕ) (N : ℕ) :
    (executeAsync exec N).1.count Event.setupPhase = 0 :=
  List.count_eq_zero.mpr (setupPhase_not_mem_execIter exec (List.range N))

theorem count_finalize_executeAsync (exec : ℕ → Except String ℕ) (N : ℕ) :
    (executeAsync exec N).1.count Event.finalizePhase = 0 :=
  List.count_eq_zero.mpr (finalizePhase_not_mem_execIter exec (List.range N))

theorem count_summarize_executeAsync (exec : ℕ → Except String ℕ) (N : ℕ) :
    (executeAsync exec N).1.count Event.summarizePhase = 0 :=
  List.count_eq_zero.mpr (summarizePhase_not_mem_execIter exec (List.range N))

theorem count_report_executeAsync (exec : ℕ → Except String ℕ) (N : ℕ) (e : String) :
    (executeAsync exec N).1.count (Event.report e) = 0 := by
  refine List.count_eq_zero.mpr fun hmem => ?_
  have := mem_execIter_trace exec (List.range N) _ hmem
  simp [isIterEv] at this

theorem count_execute_executeAsync_le_one (exec : ℕ → Except String ℕ) (N i : ℕ) :
    (executeAsync exec N).1.count (Event.execute i) ≤ 1 :=
  le_trans (execIter_count_execute exec i (List.range N))
    (List.nodup_iff_count_le_one.mp (List.nodup_range N) i)

/-- Each lifecycle phase event occurs at most once in a run's trace
(phases are never retried); the per-iteration execution event for each
index occurs at most once. -/
theorem runAsync_phase_counts {σ : Type} (h : Hooks σ) (s : σ) (N : ℕ) :
    (runAsync h s N).trace.count Event.setupPhase ≤ 1 ∧
    (runAsync h s N).trace.count Event.finalizePhase ≤ 1 ∧
    (runAsync h s N).trace.count Event.summarizePhase ≤ 1 ∧
    ∀ i, (runAsync h s N).trace.count (Event.execute i) ≤ 1 := by
  cases hs : h.setup s with
  | error e =>
    rw [runAsync_setup_err h s N e hs]
    refine ⟨by simp [List.count_cons], by simp [List.count_cons], by simp [List.count_cons],
      fun i => by simp [List.count_cons]⟩
  | ok s₁ =>
    cases hl : (executeAsync h.executeSingle N).2.2 with
    | some e =>
      rw [runAsync_exec_err h s s₁ N e hs hl]
      refine ⟨?_, ?_, ?_, fun i => ?_⟩ <;>
        simp [List.count_append, List.count_cons, count_setup_executeAsync,
          count_finalize_executeAsync, count_summarize_executeAsync,
          count_execute_executeAsync_le_one]
    | none =>
      cases hf : h.finalize s₁ with
      | error e =>
        rw [runAsync_finalize_err h s s₁ N e hs hl hf]
        refine ⟨?_, ?_, ?_, fun i => ?_⟩ <;>
          simp [List.count_append, List.count_cons, count_setup_executeAsync,
            count_finalize_executeAsync, count_summarize_executeAsync,
            count_execute_executeAsync_le_one]
      | ok s₂ =>
        rw [runAsync_all_ok h s s₁ s₂ N hs hl hf]
        refine ⟨?_, ?_, ?_, fun i => ?_⟩ <;>
          simp [List.count_append, List.count_cons, count_setup_executeAsync,
            count_finalize_executeAsync, count_summarize_executeAsync,
            count_execute_executeAsync_le_one]

/-! ## Claim theorems -/

/-- C1: for every iteration count `N ≥ 2` and every run whose phases all
succeed, `runAsync` performs exactly `N` timed executions of the
single-execution hook, and the resulting summary's raw-sample list has
length `N − 1` (the first recorded sample is discarded). -/
theorem C1_iteration_and_trim_counts {σ : Type} (h : Hooks σ) (s s₁ s₂ : σ) (N : ℕ)
    (tf : ℕ → ℕ) (hN : 2 ≤ N)
    (hs : h.setup s = Except.ok s₁)
    (he : ∀ i, i < N → h.executeSingle i = Except.ok (tf i))
    (hf : h.finalize s₁ = Except.ok s₂) :
    ((runAsync h s N).trace.countP isExecuteEv) = N ∧
    ∃ sm, (runAsync h s N).summary = some sm ∧ sm.results.length = N - 1 := by
  rw [runAsync_ok h s s₁ s₂ N tf hs he hf]
  constructor
  · simp [List.countP_cons, List.countP_append, countP_execute_flatMap, isExecuteEv]
  · refine ⟨_, rfl, ?_⟩
    have hperm := jsSort_perm ((List.range N).map tf).tail
    rw [summarize_results, hperm.length_eq, List.length_tail, List.length_map,
      List.length_range]

/-- C1 witness: a concrete fully successful run with 3 iterations. -/
theorem C1_iteration_and_trim_counts_witness :
    ((runAsync (webdnnHooks "W" (Except.ok ()) fun i => Except.ok (10 * i + 10))
        none 3).trace.countP isExecuteEv) = 3 ∧
    ∃ sm, (runAsync (webdnnHooks "W" (Except.ok ()) fun i => Except.ok (10 * i + 10))
        none 3).summary = some sm ∧ sm.results.length = 3 - 1 :=
  C1_iteration_and_trim_counts
    (webdnnHooks "W" (Except.ok ()) fun i => Except.ok (10 * i + 10))
    none (some ()) none 3 (fun i => 10 * i + 10) (by norm_num) rfl (fun _ _ => rfl) rfl

/-- C2: the summary's mean is the arithmetic average of the retained
samples and its standard-deviation radicand is the Bessel-corrected
(divide by `N − 1`) sample variance of the retained samples; retained
samples `[10, 20, 30]` give mean `20` and standard deviation
`√100 = 10`. -/
theorem C2_mean_and_bessel_std (name : String) (recorded : List ℕ)
    (hr : 2 ≤ recorded.tail.length) :
    (summarize name recorded).mean =
      (recorded.tail.map qcast).sum / recorded.tail.length ∧
    (summarize name recorded).stdSq =
      (recorded.tail.map fun x => (qcast x - (summarize name recorded).mean) ^ 2).sum /
        ((recorded.tail.length : ℚ) - 1) ∧
    (summarize name [0, 10, 20, 30]).mean = 20 ∧
    Real.sqrt ((summarize name [0, 10, 20, 30]).stdSq : ℝ) = 10 := by
  refine ⟨summarize_mean name recorded, ?_, ?_, ?_⟩
  · have hn0 : (recorded.tail.length : ℚ) ≠ 0 := by
      have : (2 : ℚ) ≤ recorded.tail.length := by exact_mod_cast hr
      intro h0
      rw [h0] at this
      norm_num at this
    have hmean := summarize_mean name recorded
    have hS : (summarize name recorded).mean * (recorded.tail.length : ℚ) =
        (recorded.tail.map qcast).sum := by
      rw [hmean]
      exact div_mul_cancel₀ _ hn0
    have hdev := sum_sq_dev (recorded.tail.map qcast) ((summarize name recorded).mean)
    rw [List.map_map, List.length_map] at hdev
    have hdev' : (recorded.tail.map
          fun x => (qcast x - (summarize name recorded).mean) ^ 2).sum =
        (recorded.tail.map fun v => qcast v * qcast v).sum -
          2 * (summarize name recorded).mean * (recorded.tail.map qcast).sum +
          (recorded.tail.length : ℚ) * (summarize name recorded).mean ^ 2 := by
      simpa [Function.comp] using hdev
    rw [summarize_stdSq]
    congr 1
    rw [hdev', ← hS]
    ring
  · rw [summarize_mean]
    norm_num [qcast]
  · have h100 : (summarize name [0, 10, 20, 30]).stdSq = 100 := by
      rw [summarize_stdSq, summarize_mean]
      norm_num [qcast]
    rw [h100]
    rw [show (((100 : ℚ) : ℝ)) = 10 ^ 2 by norm_num, Real.sqrt_sq]
    norm_num

/-- C2 witness: the statement instantiated at the concrete record
`[0, 10, 20, 30]` (warm-up sample `0`, retained `[10, 20, 30]`). -/
theorem C2_mean_and_bessel_std_witness :
    (summarize "x" [0, 10, 20, 30]).mean =
      (([0, 10, 20, 30] : List ℕ).tail.map qcast).sum /
        ([0, 10, 20, 30] : List ℕ).tail.length ∧
    (summarize "x" [0, 10, 20, 30]).stdSq =
      (([0, 10, 20, 30] : List ℕ).tail.map
        fun x => (qcast x - (summarize "x" [0, 10, 20, 30]).mean) ^ 2).sum /
        ((([0, 10, 20, 30] : List ℕ).tail.length : ℚ) - 1) ∧
    (summarize "x" [0, 10, 20, 30]).mean = 20 ∧
    Real.sqrt ((summarize "x" [0, 10, 20, 30]).stdSq : ℝ) = 10 :=
  C2_mean_and_bessel_std "x" [0, 10, 20, 30] (by decide)

/-- C3 (counterexample): the claim says the variant's finalize still runs
and nulls the engine handle when the single-execution hook fails; in this
concrete run the execution hook fails, `finalizeAsync` never runs, and
the engine handle is still set after `runAsync` settles. -/
theorem C3_counterexample :
    (runAsync (webdnnHooks "WebDNN(WebGPU)" (Except.ok ())
        fun _ => Except.error "run failed") none 1).state = some () ∧
    Event.finalizePhase ∉ (runAsync (webdnnHooks "WebDNN(WebGPU)" (Except.ok ())
        fun _ => Except.error "run failed") none 1).trace := by decide

/-- C3 (amended): if the single-execution hook fails on some iteration,
`finalizeAsync` is skipped (the `.then` chain jumps to the `.catch`), so
the engine handle is NOT released: it keeps the runner installed by
`setupAsync`, and only the error is reported.  The handle is nulled
exactly on runs whose iterations all succeed, where `finalizeAsync` does
run. -/
theorem C3_finalize_skipped_on_exec_error (name : String)
    (exec : ℕ → Except String ℕ) (N : ℕ) :
    (∀ e, (executeAsync exec N).2.2 = some e →
      (runAsync (webdnnHooks name (Except.ok ()) exec) none N).state = some () ∧
      Event.finalizePhase ∉
        (runAsync (webdnnHooks name (Except.ok ()) exec) none N).trace ∧
      Event.report e ∈ (runAsync (webdnnHooks name (Except.ok ()) exec) none N).trace) ∧
    ((executeAsync exec N).2.2 = none →
      (runAsync (webdnnHooks name (Except.ok ()) exec) none N).state = none ∧
      Event.finalizePhase ∈
        (runAsync (webdnnHooks name (Except.ok ()) exec) none N).trace) := by
  have hs : (webdnnHooks name (Except.ok ()) exec).setup none = Except.ok (some ()) := rfl
  constructor
  · intro e he
    rw [runAsync_exec_err (webdnnHooks name (Except.ok ()) exec) none (some ()) N e hs he]
    refine ⟨rfl, ?_, by simp⟩
    simp only [List.mem_append, List.mem_cons, List.not_mem_nil, or_false]
    rintro ((h | h) | h)
    · exact Event.noConfusion h
    · exact finalizePhase_not_mem_execIter _ (List.range N) h
    · exact Event.noConfusion h
  · intro hl
    have hf : (webdnnHooks name (Except.ok ()) exec).finalize (some ()) =
        Except.ok none := rfl
    rw [runAsync_all_ok (webdnnHooks name (Except.ok ()) exec) none (some ()) none N hs hl hf]
    exact ⟨rfl, by simp⟩

/-- C3 witness: a run whose first iteration fails; the handle survives,
finalize is skipped, the error is reported. -/
theorem C3_finalize_skipped_on_exec_error_witness :
    (runAsync (webdnnHooks "W" (Except.ok ())
        fun _ => Except.error "engine failure") none 2).state = some () ∧
    Event.finalizePhase ∉ (runAsync (webdnnHooks "W" (Except.ok ())
        fun _ => Except.error "engine failure") none 2).trace ∧
    Event.report "engine failure" ∈ (runAsync (webdnnHooks "W" (Except.ok ())
        fun _ => Except.error "engine failure") none 2).trace :=
  (C3_finalize_skipped_on_exec_error "W" (fun _ => Except.error "engine failure") 2).1
    "engine failure" rfl

/-- C4 (counterexample): the claim says the summary's raw-sample list is
the remaining samples sorted in ascending numeric order; for recorded
samples `[5, 10, 9]` that would be `[9, 10]`, but the code's default JS
sort is lexicographic on decimal strings ("10" < "9"), giving `[10, 9]`. -/
theorem C4_counterexample :
    (summarize "n" [5, 10, 9]).results = [10, 9] ∧
    (summarize "n" [5, 10, 9]).results ≠ [9, 10] := by decide

/-- C4 (amended): `summarize` discards the first recorded sample and the
summary's raw-sample list is a permutation of the remaining samples,
sorted ascending by the ECMAScript default comparison — lexicographic on
the samples' decimal-string representations — which coincides with
numeric order only when the string order does. -/
theorem C4_first_discarded_then_string_sorted (name : String) (recorded : List ℕ) :
    (summarize name recorded).results.Perm recorded.tail ∧
    (summarize name recorded).results.Sorted jsLe := by
  rw [summarize_results]
  exact ⟨jsSort_perm _, jsSort_sorted _⟩

/-- C5: whichever phase rejects first (setup, a single iteration's
execution, or finalize), all remaining phases are skipped, the summary
field stays unset, the returned promise resolves with no summary, and
the error is surfaced to the reporter; moreover no phase is ever retried
(each phase event appears at most once in the trace). -/
theorem C5_first_failure_aborts {σ : Type} (h : Hooks σ) (s : σ) (N : ℕ) :
    (∀ e, h.setup s = Except.error e →
      (runAsync h s N).trace = [Event.setupPhase, Event.report e] ∧
      (runAsync h s N).summary = none ∧
      (runAsync h s N).value = Except.ok none) ∧
    (∀ s₁ e, h.setup s = Except.ok s₁ →
      (executeAsync h.executeSingle N).2.2 = some e →
      (runAsync h s N).summary = none ∧
      (runAsync h s N).value = Except.ok none ∧
      Event.finalizePhase ∉ (runAsync h s N).trace ∧
      Event.summarizePhase ∉ (runAsync h s N).trace ∧
      Event.report e ∈ (runAsync h s N).trace) ∧
    (∀ s₁ e, h.setup s = Except.ok s₁ →
      (executeAsync h.executeSingle N).2.2 = none →
      h.finalize s₁ = Except.error e →
      (runAsync h s N).summary = none ∧
      (runAsync h s N).value = Except.ok none ∧
      Event.summarizePhase ∉ (runAsync h s N).trace ∧
      Event.report e ∈ (runAsync h s N).trace) ∧
    ((runAsync h s N).trace.count Event.setupPhase ≤ 1 ∧
      (runAsync h s N).trace.count Event.finalizePhase ≤ 1 ∧
      (runAsync h s N).trace.count Event.summarizePhase ≤ 1 ∧
      ∀ i, (runAsync h s N).trace.count (Event.execute i) ≤ 1) := by
  refine ⟨?_, ?_, ?_, runAsync_phase_counts h s N⟩
  · intro e he
    rw [runAsync_setup_err h s N e he]
    exact ⟨rfl, rfl, rfl⟩
  · intro s₁ e hs he
    rw [runAsync_exec_err h s s₁ N e hs he]
    refine ⟨rfl, rfl, ?_, ?_, by simp⟩
    · simp only [List.mem_append, List.mem_cons, List.not_mem_nil, or_false]
      rintro ((hmem | hmem) | hmem)
      · exact Event.noConfusion hmem
      · exact finalizePhase_not_mem_execIter _ (List.range N) hmem
      · exact Event.noConfusion hmem
    · simp only [List.mem_append, List.mem_cons, List.not_mem_nil, or_false]
      rintro ((hmem | hmem) | hmem)
      · exact Event.noConfusion hmem
      · exact summarizePhase_not_mem_execIter _ (List.range N) hmem
      · exact Event.noConfusion hmem
  · intro s₁ e hs hl hf
    rw [runAsync_finalize_err h s s₁ N e hs hl hf]
    refine ⟨rfl, rfl, ?_, by simp⟩
    intro hmem
    have hmem' : Event.summarizePhase ∈ (executeAsync h.executeSingle N).1 := by
      simpa using hmem
    exact summarizePhase_not_mem_execIter _ (List.range N) hmem'

/-- C5 witness: a run whose setup rejects. -/
theorem C5_first_failure_aborts_witness :
    (runAsync (webdnnHooks "W5" (Except.error "load failed")
        fun _ => Except.ok 1) none 3).trace =
      [Event.setupPhase, Event.report "load failed"] ∧
    (runAsync (webdnnHooks "W5" (Except.error "load failed")
        fun _ => Except.ok 1) none 3).summary = none ∧
    (runAsync (webdnnHooks "W5" (Except.error "load failed")
        fun _ => Except.ok 1) none 3).value = Except.ok none :=
  (C5_first_failure_aborts (webdnnHooks "W5" (Except.error "load failed")
    fun _ => Except.ok 1) none 3).1 "load failed" rfl

/-- C6: on a fully successful run the phases happen in strict sequence:
setup, then for each iteration index in order {progress notification,
fixed 1000 ms cooldown, timed execution (the two timestamps are folded
into the recorded elapsed time), recorded sample}, then finalize, then
summarize.  The trace is a single sequential list, so no phase starts
before the previous completes. -/
theorem C6_strict_phase_sequence {σ : Type} (h : Hooks σ) (s s₁ s₂ : σ) (N : ℕ)
    (tf : ℕ → ℕ)
    (hs : h.setup s = Except.ok s₁)
    (he : ∀ i, i < N → h.executeSingle i = Except.ok (tf i))
    (hf : h.finalize s₁ = Except.ok s₂) :
    (runAsync h s N).trace =
      Event.setupPhase :: ((List.range N).flatMap fun i =>
        [Event.notify i, Event.wait 1000, Event.execute i, Event.record i (tf i)]) ++
      [Event.finalizePhase, Event.summarizePhase] := by
  rw [runAsync_ok h s s₁ s₂ N tf hs he hf]
  rfl

/-- C6 witness: the concrete 2-iteration trace. -/
theorem C6_strict_phase_sequence_witness :
    (runAsync (webdnnHooks "W6" (Except.ok ()) fun i => Except.ok (i + 7))
        none 2).trace =
      Event.setupPhase :: ((List.range 2).flatMap fun i =>
        [Event.notify i, Event.wait 1000, Event.execute i, Event.record i (i + 7)]) ++
      [Event.finalizePhase, Event.summarizePhase] :=
  C6_strict_phase_sequence (webdnnHooks "W6" (Except.ok ()) fun i => Except.ok (i + 7))
    none (some ()) none 2 (fun i => i + 7) rfl (fun _ _ => rfl) rfl

/-- C7: for any selected model other than `resnet50`, the deeplearn.js
variant's setup throws the unsupported-model error, so the run aborts
before any timed iteration: no samples are recorded, no summary is
produced, and the trace holds only the setup phase and the report. -/
theorem C7_deeplearn_model_guard (name model : String)
    (exec : ℕ → Except String ℕ) (N : ℕ) (hm : model ≠ "resnet50") :
    (runAsync (deepLearnHooks name model exec) none N).results = [] ∧
    (runAsync (deepLearnHooks name model exec) none N).summary = none ∧
    (runAsync (deepLearnHooks name model exec) none N).trace =
      [Event.setupPhase,
        Event.report "Only ResNet50 is supported in benchmark of deeplearn.js"] := by
  have hs : (deepLearnHooks name model exec).setup none =
      Except.error "Only ResNet50 is supported in benchmark of deeplearn.js" := by
    simp [deepLearnHooks, deepLearnJSSetup, hm, Except.map]
  rw [runAsync_setup_err _ none N _ hs]
  exact ⟨rfl, rfl, rfl⟩

/-- C7 witness at the model selection `inception_v3`. -/
theorem C7_deeplearn_model_guard_witness :
    (runAsync (deepLearnHooks "deeplearn.js(CPU)" "inception_v3"
        fun _ => Except.ok 3) none 5).results = [] ∧
    (runAsync (deepLearnHooks "deeplearn.js(CPU)" "inception_v3"
        fun _ => Except.ok 3) none 5).summary = none ∧
    (runAsync (deepLearnHooks "deeplearn.js(CPU)" "inception_v3"
        fun _ => Except.ok 3) none 5).trace =
      [Event.setupPhase,
        Event.report "Only ResNet50 is supported in benchmark of deeplearn.js"] :=
  C7_deeplearn_model_guard "deeplearn.js(CPU)" "inception_v3"
    (fun _ => Except.ok 3) 5 (by decide)

/-- C8: constructing the same WebDNN variant twice with identical
parameters yields identical configurations (construction is pure), the
stored backend is the constructor argument, and the optimized flag
deterministically selects between the `optimized` and `non_optimized`
artifact paths, which are distinct. -/
theorem C8_variant_construction_deterministic (n b m : String) (f : Bool) :
    mkWebDNNBenchmark n b f = mkWebDNNBenchmark n b f ∧
    (mkWebDNNBenchmark n b f).backend = b ∧
    webdnnLoadPath m true = "./output/webdnn/" ++ m ++ "/optimized" ∧
    webdnnLoadPath m false = "./output/webdnn/" ++ m ++ "/non_optimized" ∧
    webdnnLoadPath m true ≠ webdnnLoadPath m false := by
  have htrue : webdnnLoadPath m true = "./output/webdnn/" ++ m ++ "/optimized" := by
    show "./output/webdnn/" ++ m ++ "/" ++ "" ++ "optimized" = _
    rw [String.append_empty, String.append_assoc,
      show ("/" : String) ++ "optimized" = "/optimized" from rfl]
  have hfalse : webdnnLoadPath m false = "./output/webdnn/" ++ m ++ "/non_optimized" := by
    show "./output/webdnn/" ++ m ++ "/" ++ "non_" ++ "optimized" = _
    rw [String.append_assoc, String.append_assoc,
      show ("non_" : String) ++ "optimized" = "non_optimized" from rfl,
      show ("/" : String) ++ "non_optimized" = "/non_optimized" from rfl]
  refine ⟨rfl, rfl, htrue, hfalse, ?_⟩
  rw [htrue, hfalse]
  intro hEq
  have hlen := congrArg String.length hEq
  simp only [String.length_append] at hlen
  rw [show ("/optimized" : String).length = 10 from by decide,
    show ("/non_optimized" : String).length = 14 from by decide] at hlen
  omega

/-- C9: the `run` driver passes `runAsync` the entered value plus one
(`Number(...) + 1`), and if the entered value is not a number (`NaN`),
the `isNaN` guard replaces the whole count with exactly 5. -/
theorem C9_driver_iteration_count (q : ℚ) :
    driverNumIteration (some q) = q + 1 ∧ driverNumIteration none = 5 :=
  ⟨rfl, rfl⟩

/-- C10: the promise `runAsync` returns never rejects: it resolves with
the summary on success and — after the `.catch` reports the error — with
`undefined` (no summary) on any failure. -/
theorem C10_run_promise_never_rejects {σ : Type} (h : Hooks σ) (s : σ) (N : ℕ) :
    (runAsync h s N).value = Except.ok ((runAsync h s N).summary) ∧
    ((runAsync h s N).summary = none →
      ∃ e, Event.report e ∈ (runAsync h s N).trace) := by
  cases hs : h.setup s with
  | error e =>
    rw [runAsync_setup_err h s N e hs]
    exact ⟨rfl, fun _ => ⟨e, by simp⟩⟩
  | ok s₁ =>
    cases hl : (executeAsync h.executeSingle N).2.2 with
    | some e =>
      rw [runAsync_exec_err h s s₁ N e hs hl]
      exact ⟨rfl, fun _ => ⟨e, by simp⟩⟩
    | none =>
      cases hf : h.finalize s₁ with
      | error e =>
        rw [runAsync_finalize_err h s s₁ N e hs hl hf]
        exact ⟨rfl, fun _ => ⟨e, by simp⟩⟩
      | ok s₂ =>
        rw [runAsync_all_ok h s s₁ s₂ N hs hl hf]
        exact ⟨rfl, fun hnone => by simp at hnone⟩

/-- C10 witness: a failing run still resolves, with the error reported. -/
theorem C10_run_promise_never_rejects_witness :
    ∃ e, Event.report e ∈ (runAsync (webdnnHooks "K" (Except.error "load failed")
      fun _ => Except.ok 0) none 2).trace :=
  (C10_run_promise_never_rejects (webdnnHooks "K" (Except.error "load failed")
    fun _ => Except.ok 0) none 2).2 rfl

end WebDNNBench
